import Mathlib

/-!
Verification development for the UAV trajectory-optimization repository
(`cfoh/UAV-Trajectory-Optimization`).

The Python sources are shallowly embedded:
* `rl/rlbase.py` → `DecayingFloat` and `RL.set_exploration`;
* `rl/sarsa.py` → the `SARSA` structure with `SARSA.get_action`,
  and a pure model of the JSON snapshot produced by `save_data` and
  consumed by `load_data`;
* `uavenv/uav2dgrid.py` → the grid constants, the obstacle list, the
  precomputed valid-action matrix, and `UAVEnv.step`.

Python floats are modelled by `ℚ`.  The Q-table dictionary with its
lazily created all-zero rows (method `SARSA.q`) is modelled by a total
function `String → List ℚ` whose default is the all-zero row, which is
exactly the observable behaviour of the accessor `q`.  Randomness
(`random.uniform`, `random.choice`) is modelled by an explicit oracle
supplying the drawn number and the chosen index.  The channel-rate
field `UE.RATE`, computed in the source with transcendental functions,
is passed to `UAVEnv.step` as an abstract parameter `rate`.
-/

/-! ## `rl/rlbase.py`: the decaying float -/

/-- Embedding of class `DecayingFloat` (rl/rlbase.py). -/
structure DecayingFloat where
  init : ℚ
  value : ℚ
  factor : Option ℚ
  minval : Option ℚ
  mode : String
  deriving DecidableEq, Repr

/-- Constructor defaults of `DecayingFloat.__init__`. -/
def DecayingFloat.mk' (value : ℚ) (factor : Option ℚ := none)
    (minval : Option ℚ := none) (mode : String := "exp") : DecayingFloat :=
  ⟨value, value, factor, minval, mode⟩

/-- Embedding of `DecayingFloat.reset`. -/
def DecayingFloat.reset (d : DecayingFloat) : DecayingFloat :=
  { d with value := d.init }

/-- Embedding of `DecayingFloat.decay` (rl/rlbase.py lines 83-97):
no factor ⇒ no change; mode "exp" multiplies by the factor, mode
"linear" subtracts it, any other mode leaves the value; afterwards the
value is clamped from below by `minval` when one is configured. -/
def DecayingFloat.decay (d : DecayingFloat) : DecayingFloat :=
  match d.factor with
  | none => d
  | some f =>
    let v :=
      if d.mode = "exp" then d.value * f
      else if d.mode = "linear" then d.value - f
      else d.value
    match d.minval with
    | none => { d with value := v }
    | some m => { d with value := if v < m then m else v }

/-- `n` successive calls to `decay`. -/
def DecayingFloat.decayN (d : DecayingFloat) : ℕ → DecayingFloat
  | 0 => d
  | n + 1 => (d.decayN n).decay

/-! ## `rl/sarsa.py`: the SARSA agent -/

/-- The duck-typed state contract used by the agent: any object with a
string form (used as the Q-table key) and a list of valid actions. -/
structure AgentState where
  key : String
  valid_actions : List ℕ
  deriving DecidableEq, Repr

/-- Oracle for the two `random` calls inside `get_action`: `draw`
models `random.uniform(0,1)` and `pick` models the index drawn by
`random.choice` from whichever candidate list that branch builds. -/
structure RandOracle where
  draw : ℚ
  pick : ℕ
  deriving DecidableEq, Repr

/-- `random.choice(lst)` with the oracle index `k`: the element at
position `k % lst.length` (any element is reachable by some `k`). -/
def randChoice (lst : List ℕ) (k : ℕ) : ℕ :=
  lst.getD (k % lst.length) 0

/-- `np.max` over a nonempty list (`np.max(self.q(s1)[valid])`). -/
def npMax : List ℚ → ℚ
  | [] => 0
  | [x] => x
  | x :: y :: xs => max x (npMax (y :: xs))

/-- Embedding of class `SARSA` (rl/sarsa.py).  `q_table` is the total
view of the dictionary: unseen keys read as the all-zero row. -/
structure SARSA where
  is_exploration : Bool
  num_actions : ℕ
  q_table : String → List ℚ
  alpha : ℚ
  gamma : ℚ
  epsilon : DecayingFloat
  current_state : Option AgentState
  current_action : Option ℕ

/-- `SARSA.__init__`: hyperparameters α=0.3, γ=0.9 and
ε = DecayingFloat(value=0.9, factor=1-1e-8, minval=0.05). -/
def SARSA.mk' (num_actions : ℕ) (exploration : Bool := true) : SARSA where
  is_exploration := exploration
  num_actions := num_actions
  q_table := fun _ => List.replicate num_actions 0
  alpha := 3 / 10
  gamma := 9 / 10
  epsilon := DecayingFloat.mk' (9 / 10) (some (1 - 1 / 100000000)) (some (1 / 20))
  current_state := none
  current_action := none

/-- The accessor `SARSA.q`: row of the Q-table for key `s`. -/
def SARSA.q (ag : SARSA) (s : String) : List ℚ :=
  ag.q_table s

/-- Embedding of `RL.set_exploration` (rl/rlbase.py lines 25-30),
which `SARSA` inherits: set the flag, return the previous one. -/
def SARSA.set_exploration (ag : SARSA) (exploration : Bool) : Bool × SARSA :=
  (ag.is_exploration, { ag with is_exploration := exploration })

/-- Embedding of `SARSA.get_action` (rl/sarsa.py lines 100-156).
Returns the selected action and the updated agent.  Mirrors the
source line by line: choose `a1` by exploration/exploitation, decay
epsilon, update `Q[current_state][current_action]` by the SARSA rule
when a prior pair exists and a reward was given, store the new
(state, action) pair. -/
def SARSA.get_action (ag : SARSA) (state : AgentState) (reward : Option ℚ)
    (or : RandOracle) : ℕ × SARSA :=
  let s1 := state.key
  let a1 : ℕ :=
    if ag.is_exploration = true ∧ or.draw < ag.epsilon.value then
      randChoice state.valid_actions or.pick
    else
      let max_value := npMax (state.valid_actions.map (fun i => (ag.q s1).getD i 0))
      let possible_actions :=
        state.valid_actions.filter (fun i => (ag.q s1).getD i 0 = max_value)
      randChoice possible_actions or.pick
  let epsilon' := ag.epsilon.decay
  let q_table' : String → List ℚ :=
    match ag.current_state, reward with
    | some cs, some r =>
      let s := cs.key
      let a := ag.current_action.getD 0
      let old := (ag.q s).getD a 0
      let newv := old + ag.alpha * (r + ag.gamma * (ag.q s1).getD a1 0 - old)
      fun k => if k = s then (ag.q_table s).set a newv else ag.q_table k
    | _, _ => ag.q_table
  (a1, { ag with
          epsilon := epsilon'
          q_table := q_table'
          current_state := some state
          current_action := some a1 })

/-! ## `uavenv/uav2dgrid.py`: the grid environment -/

/-- Grid dimensions (class `Frame`). -/
def Frame.ROWS : ℕ := 15

/-- Grid dimensions (class `Frame`). -/
def Frame.COLS : ℕ := 15

/-- Embedding of class `Pos` (a grid cell, indexed col then row). -/
structure Pos where
  col : ℕ
  row : ℕ
  deriving DecidableEq, Repr

/-- `OBSTACLE.POS_LIST`: the obstacle block, columns 9-10, rows 8-11
(`for x in range(9,11): for y in range(8,12): POS_LIST.append(Pos(x,y))`). -/
def OBSTACLE.POS_LIST : List Pos :=
  (List.range' 9 2).flatMap (fun x => (List.range' 8 4).map (fun y => ⟨x, y⟩))

/-- `UAV.START_POS = Pos(0, Frame.ROWS-1)`. -/
def UAV.START_POS : Pos := ⟨0, Frame.ROWS - 1⟩

/-- `UAV.END_POS = Pos(0, Frame.ROWS-1)`. -/
def UAV.END_POS : Pos := ⟨0, Frame.ROWS - 1⟩

/-- `UAV.FLIGHT_TIME = 50`. -/
def UAV.FLIGHT_TIME : ℕ := 50

/-- The four actions of class `Action` (integers starting from 0). -/
def Action.UP : ℕ := 0

/-- The four actions of class `Action` (integers starting from 0). -/
def Action.DOWN : ℕ := 1

/-- The four actions of class `Action` (integers starting from 0). -/
def Action.LEFT : ℕ := 2

/-- The four actions of class `Action` (integers starting from 0). -/
def Action.RIGHT : ℕ := 3

/-- The UE identifiers, the keys of `UE.POS` / `UE.RATE`. -/
def UE.ids : List ℕ := [0, 1]

/-- In-place update of the element at one index, as Python's
`lst[i] = f(lst[i])`; out-of-range indices leave the list unchanged. -/
def modifyIdx (f : α → α) : ℕ → List α → List α
  | _, [] => []
  | 0, a :: as => f a :: as
  | n + 1, a :: as => a :: modifyIdx f n as

/-- The nested-list type of `State.valid_action_matrix`
(`[col][row] -> list of actions`). -/
abbrev VAMatrix := List (List (List ℕ))

/-- `valid_actions[c][r].remove(a)` on the nested lists. -/
def removeVA (m : VAMatrix) (c r : ℕ) (a : ℕ) : VAMatrix :=
  modifyIdx (modifyIdx (fun l => l.erase a) r) c m

/-- The valid-action matrix built in `UAVEnv.__init__`
(uavenv/uav2dgrid.py lines 296-311): every cell starts with all four
actions; the edge loops drop moves leaving the grid; the obstacle loop
drops, for each obstacle cell, the move entering it from each of its
four neighbours. -/
def UAVEnv.valid_action_matrix : VAMatrix :=
  let m0 : VAMatrix :=
    List.replicate Frame.COLS (List.replicate Frame.ROWS
      [Action.UP, Action.DOWN, Action.LEFT, Action.RIGHT])
  let m1 := (List.range Frame.COLS).foldl
    (fun m col =>
      removeVA (removeVA m col 0 Action.UP) col (Frame.ROWS - 1) Action.DOWN) m0
  let m2 := (List.range Frame.ROWS).foldl
    (fun m row =>
      removeVA (removeVA m 0 row Action.LEFT) (Frame.COLS - 1) row Action.RIGHT) m1
  OBSTACLE.POS_LIST.foldl
    (fun m pos =>
      removeVA (removeVA (removeVA (removeVA m
        (pos.col - 1) pos.row Action.RIGHT)
        (pos.col + 1) pos.row Action.LEFT)
        pos.col (pos.row - 1) Action.DOWN)
        pos.col (pos.row + 1) Action.UP) m2

/-- `State.valid_actions` (uavenv/uav2dgrid.py lines 235-237): the
precomputed list for cell `(c,r)`. -/
def State.valid_actions (c r : ℕ) : List ℕ :=
  (UAVEnv.valid_action_matrix.getD c []).getD r []

/-- The mutable UAV state of `UAVEnv` (`uav_pos`, `uav_step`). -/
structure EnvState where
  uav_pos : Pos
  uav_step : ℕ
  deriving DecidableEq, Repr

/-- `UAVEnv.reset` (position only; counters cleared). -/
def UAVEnv.reset : EnvState := ⟨UAV.START_POS, 0⟩

/-- The displacement part of `UAVEnv.step` (uavenv/uav2dgrid.py lines
340-348): a directional action moves the UAV one cell if the result
stays inside the grid; anything else leaves the position unchanged. -/
def UAVEnv.move (pos : Pos) (action : ℕ) : Pos :=
  if action = Action.UP ∧ pos.row > 0 then ⟨pos.col, pos.row - 1⟩
  else if action = Action.DOWN ∧ pos.row < Frame.ROWS - 1 then ⟨pos.col, pos.row + 1⟩
  else if action = Action.LEFT ∧ pos.col > 0 then ⟨pos.col - 1, pos.row⟩
  else if action = Action.RIGHT ∧ pos.col < Frame.COLS - 1 then ⟨pos.col + 1, pos.row⟩
  else pos

/-- `min()` over a nonempty Python list. -/
def npMin : List ℚ → ℚ
  | [] => 0
  | [x] => x
  | x :: y :: xs => min x (npMin (y :: xs))

/-- What `UAVEnv.step` returns: the new `State(col,row,step)` (here the
new internal state, which carries the same data), the reward and the
two episode-end flags. -/
structure StepResult where
  state : EnvState
  reward : ℚ
  terminated : Bool
  truncated : Bool
  deriving DecidableEq, Repr

/-- Embedding of `UAVEnv.step` (uavenv/uav2dgrid.py lines 335-377).
`rate ue pos` stands for the precomputed entry
`UE.RATE[ue][pos.col][pos.row]`. -/
def UAVEnv.step (rate : ℕ → Pos → ℚ) (env : EnvState) (action : ℕ) : StepResult :=
  let pos' := UAVEnv.move env.uav_pos action
  let step' := env.uav_step + 1
  let reward := npMin (UE.ids.map (fun ue => rate ue pos'))
  if pos' = UAV.END_POS ∧ step' = UAV.FLIGHT_TIME then
    ⟨⟨pos', step'⟩, reward, true, false⟩
  else if pos' = UAV.END_POS then
    ⟨⟨pos', step'⟩, reward - reward * ((UAV.FLIGHT_TIME : ℚ) - (step' : ℚ)), false, true⟩
  else if step' = UAV.FLIGHT_TIME then
    ⟨⟨pos', step'⟩, reward - reward * 10, false, true⟩
  else
    ⟨⟨pos', step'⟩, reward, false, false⟩

/-! ### Property-side vocabulary for the valid-action claims -/

/-- Whether a cell is an obstacle cell. -/
def isObstacle (p : Pos) : Prop := p ∈ OBSTACLE.POS_LIST

instance (p : Pos) : Decidable (isObstacle p) := by
  unfold isObstacle; infer_instance

/-- The (col,row) displacement of each action, over `ℤ` so that edge
cells can be described uniformly. -/
def actionDelta (a : ℕ) : ℤ × ℤ :=
  if a = Action.UP then (0, -1)
  else if a = Action.DOWN then (0, 1)
  else if a = Action.LEFT then (-1, 0)
  else (1, 0)

/-- The cell an action points to is outside the 15×15 grid. -/
def offGrid (x y : ℤ) : Prop :=
  x < 0 ∨ y < 0 ∨ (Frame.COLS : ℤ) ≤ x ∨ (Frame.ROWS : ℤ) ≤ y

instance (x y : ℤ) : Decidable (offGrid x y) := by
  unfold offGrid; infer_instance

/-- The cell an action points to is an obstacle cell. -/
def obstacleAtZ (x y : ℤ) : Prop :=
  ∃ p ∈ OBSTACLE.POS_LIST, (p.col : ℤ) = x ∧ (p.row : ℤ) = y

instance (x y : ℤ) : Decidable (obstacleAtZ x y) := by
  unfold obstacleAtZ; infer_instance

/-- A cell has an orthogonally adjacent obstacle cell. -/
def adjacentObstacle (c r : ℕ) : Prop :=
  obstacleAtZ ((c : ℤ) - 1) r ∨ obstacleAtZ ((c : ℤ) + 1) r ∨
    obstacleAtZ c ((r : ℤ) - 1) ∨ obstacleAtZ c ((r : ℤ) + 1)

instance (c r : ℕ) : Decidable (adjacentObstacle c r) := by
  unfold adjacentObstacle; infer_instance

/-! ## Helper lemmas -/

theorem npMax_mem : ∀ l : List ℚ, l ≠ [] → npMax l ∈ l
  | [x], _ => by simp [npMax]
  | x :: y :: xs, _ => by
    have ih := npMax_mem (y :: xs) (by simp)
    rw [npMax]
    rcases max_choice x (npMax (y :: xs)) with h | h <;> rw [h]
    · exact List.mem_cons_self _ _
    · exact List.mem_cons_of_mem _ ih

theorem le_npMax : ∀ l : List ℚ, ∀ a ∈ l, a ≤ npMax l
  | [x], a, ha => by
    rw [List.mem_singleton] at ha
    simp [npMax, ha]
  | x :: y :: xs, a, ha => by
    rw [npMax]
    rcases List.mem_cons.mp ha with h | h
    · exact h ▸ le_max_left _ _
    · exact le_trans (le_npMax (y :: xs) a h) (le_max_right _ _)

theorem npMin_mem : ∀ l : List ℚ, l ≠ [] → npMin l ∈ l
  | [x], _ => by simp [npMin]
  | x :: y :: xs, _ => by
    have ih := npMin_mem (y :: xs) (by simp)
    rw [npMin]
    rcases min_choice x (npMin (y :: xs)) with h | h <;> rw [h]
    · exact List.mem_cons_self _ _
    · exact List.mem_cons_of_mem _ ih

theorem npMin_le : ∀ l : List ℚ, ∀ a ∈ l, npMin l ≤ a
  | [x], a, ha => by
    rw [List.mem_singleton] at ha
    simp [npMin, ha]
  | x :: y :: xs, a, ha => by
    rw [npMin]
    rcases List.mem_cons.mp ha with h | h
    · exact h ▸ min_le_left _ _
    · exact le_trans (min_le_right _ _) (npMin_le (y :: xs) a h)

theorem randChoice_mem (lst : List ℕ) (k : ℕ) (h : lst ≠ []) :
    randChoice lst k ∈ lst := by
  have hlen : 0 < lst.length := List.length_pos.mpr h
  have hlt : k % lst.length < lst.length := Nat.mod_lt _ hlen
  rw [randChoice, List.getD_eq_getElem _ _ hlt]
  exact lst.getElem_mem hlt

theorem randChoice_reaches (lst : List ℕ) (b : ℕ) (hb : b ∈ lst) :
    ∃ k, randChoice lst k = b := by
  obtain ⟨i, hi, hbi⟩ := List.getElem_of_mem hb
  refine ⟨i, ?_⟩
  rw [randChoice, Nat.mod_eq_of_lt hi, List.getD_eq_getElem _ _ hi]
  exact hbi

theorem getD_set_ne (l : List ℚ) (a i : ℕ) (v d : ℚ) (h : i ≠ a) :
    (l.set a v).getD i d = l.getD i d := by
  unfold List.getD
  rw [List.get?_eq_getElem?, List.get?_eq_getElem?, List.getElem?_set_ne (by omega)]

/-! ## Lemmas about `DecayingFloat.decay` -/

theorem decay_factor (d : DecayingFloat) : d.decay.factor = d.factor := by
  rcases d with ⟨i, v, f, m, mo⟩
  rcases f with _ | f <;> rcases m with _ | m <;> simp [DecayingFloat.decay]

theorem decay_minval (d : DecayingFloat) : d.decay.minval = d.minval := by
  rcases d with ⟨i, v, f, m, mo⟩
  rcases f with _ | f <;> rcases m with _ | m <;> simp [DecayingFloat.decay]

theorem decay_mode (d : DecayingFloat) : d.decay.mode = d.mode := by
  rcases d with ⟨i, v, f, m, mo⟩
  rcases f with _ | f <;> rcases m with _ | m <;> simp [DecayingFloat.decay]

theorem decayN_factor (d : DecayingFloat) (n : ℕ) : (d.decayN n).factor = d.factor := by
  induction n with
  | zero => rfl
  | succ n ih => rw [DecayingFloat.decayN, decay_factor, ih]

theorem decayN_minval (d : DecayingFloat) (n : ℕ) : (d.decayN n).minval = d.minval := by
  induction n with
  | zero => rfl
  | succ n ih => rw [DecayingFloat.decayN, decay_minval, ih]

theorem decayN_mode (d : DecayingFloat) (n : ℕ) : (d.decayN n).mode = d.mode := by
  induction n with
  | zero => rfl
  | succ n ih => rw [DecayingFloat.decayN, decay_mode, ih]

theorem le_clamp (w m : ℚ) : m ≤ if w < m then m else w := by
  split
  · exact le_rfl
  · exact le_of_not_lt (by assumption)

theorem decay_floor (d : DecayingFloat) (m : ℚ) (hm : d.minval = some m)
    (hv : m ≤ d.value) : m ≤ d.decay.value := by
  rcases d with ⟨i, v, f, mv, mo⟩
  simp only at hm hv ⊢
  subst hm
  rcases f with _ | f
  · simpa [DecayingFloat.decay] using hv
  · simp only [DecayingFloat.decay]
    exact le_clamp _ _

theorem decay_value_exp_nofloor (d : DecayingFloat) (f : ℚ) (hmv : d.minval = none)
    (hmode : d.mode = "exp") (hf : d.factor = some f) :
    d.decay.value = d.value * f := by
  rcases d with ⟨i, v, fa, mv, mo⟩
  simp only at hmv hmode hf
  subst hmv hmode hf
  simp [DecayingFloat.decay]

theorem decayN_value_exp (d : DecayingFloat) (f : ℚ) (hmv : d.minval = none)
    (hmode : d.mode = "exp") (hf : d.factor = some f) (n : ℕ) :
    (d.decayN n).value = d.value * f ^ n := by
  induction n with
  | zero => simp [DecayingFloat.decayN]
  | succ n ih =>
    have h1 : (d.decayN n).minval = none := by rw [decayN_minval, hmv]
    have h2 : (d.decayN n).mode = "exp" := by rw [decayN_mode, hmode]
    have h3 : (d.decayN n).factor = some f := by rw [decayN_factor, hf]
    rw [DecayingFloat.decayN, decay_value_exp_nofloor _ f h1 h2 h3, ih, pow_succ, mul_assoc]

theorem decay_noninc (d : DecayingFloat) (f : ℚ) (hmode : d.mode = "exp")
    (hf : d.factor = some f) (hf1 : f < 1) (hv : 0 < d.value)
    (hfloor : ∀ m, d.minval = some m → m ≤ d.value) :
    d.decay.value ≤ d.value := by
  rcases d with ⟨i, v, fa, mv, mo⟩
  simp only at hmode hf hv hfloor ⊢
  subst hmode
  subst hf
  have hlt : v * f < v := mul_lt_of_lt_one_right hv hf1
  rcases mv with _ | m
  · simp [DecayingFloat.decay]
    exact hlt.le
  · have hm := hfloor m rfl
    simp [DecayingFloat.decay]
    split
    · exact hm
    · exact hlt.le

/-- C7: once a floor is configured and the current value is at least
the floor, no sequence of `decay()` calls ever takes the value below
the floor; in exponential mode with `0 < factor < 1` and a positive
value (at or above the floor when one is set) a `decay()` call never
increases the value; and with no floor the value strictly decreases
along the decay sequence and eventually drops below every positive
bound. -/
theorem decaying_float_floor_and_monotone :
    (∀ (d : DecayingFloat) (m : ℚ), d.minval = some m → m ≤ d.value →
      ∀ n : ℕ, m ≤ (d.decayN n).value)
    ∧ (∀ (d : DecayingFloat) (f : ℚ), d.mode = "exp" → d.factor = some f →
        0 < f → f < 1 → 0 < d.value → (∀ m, d.minval = some m → m ≤ d.value) →
        d.decay.value ≤ d.value)
    ∧ (∀ (d : DecayingFloat) (f : ℚ), d.minval = none → d.mode = "exp" →
        d.factor = some f → 0 < f → f < 1 → 0 < d.value →
        (∀ n : ℕ, (d.decayN (n + 1)).value < (d.decayN n).value)
        ∧ ∀ ε : ℚ, 0 < ε → ∃ n : ℕ, (d.decayN n).value < ε) := by
  refine ⟨?_, ?_, ?_⟩
  · intro d m hm hv n
    induction n with
    | zero => exact hv
    | succ n ih =>
      rw [DecayingFloat.decayN]
      exact decay_floor _ m (by rw [decayN_minval, hm]) ih
  · intro d f hmode hf _ hf1 hv hfloor
    exact decay_noninc d f hmode hf hf1 hv hfloor
  · intro d f hmv hmode hf hf0 hf1 hv
    constructor
    · intro n
      rw [decayN_value_exp d f hmv hmode hf, decayN_value_exp d f hmv hmode hf]
      exact mul_lt_mul_of_pos_left (pow_lt_pow_right_of_lt_one₀ hf0 hf1 (Nat.lt_succ_self n)) hv
    · intro ε hε
      obtain ⟨n, hn⟩ := exists_pow_lt_of_lt_one (div_pos hε hv) hf1
      refine ⟨n, ?_⟩
      rw [decayN_value_exp d f hmv hmode hf]
      calc d.value * f ^ n < d.value * (ε / d.value) :=
            mul_lt_mul_of_pos_left hn hv
        _ = ε := mul_div_cancel₀ ε (ne_of_gt hv)

/-- Witness for C7 at concrete decaying floats. -/
theorem decaying_float_floor_and_monotone_witness :
    ((1 : ℚ) / 20 ≤
      ((DecayingFloat.mk (9/10) (9/10) (some (1/2)) (some (1/20)) "exp").decayN 3).value)
    ∧ ((DecayingFloat.mk (9/10) (9/10) (some (1/2)) (some (1/20)) "exp").decay.value
        ≤ (9 : ℚ) / 10)
    ∧ ((DecayingFloat.mk (9/10) (9/10) (some (1/2)) none "exp").decayN 1).value
        < ((DecayingFloat.mk (9/10) (9/10) (some (1/2)) none "exp").decayN 0).value := by
  refine ⟨?_, ?_, ?_⟩
  · exact decaying_float_floor_and_monotone.1 _ (1/20) rfl (by norm_num) 3
  · exact decaying_float_floor_and_monotone.2.1 _ (1/2) rfl rfl (by norm_num) (by norm_num)
      (by norm_num) (by rintro m ⟨rfl⟩; norm_num)
  · exact (decaying_float_floor_and_monotone.2.2 _ (1/2) rfl rfl rfl (by norm_num)
      (by norm_num) (by norm_num)).1 0

/-! ## Claims about `UAVEnv.step` -/

/-- C2: `step` reports `terminated=true` exactly when the new position
is the return cell and the incremented step count equals the
flight-time budget; then `truncated=false` and the reward is the raw
max-min rate, unpenalized.  `terminated` and `truncated` never hold
together; `truncated` only arises from an early return or an overrun,
and in the remaining cases both flags are false.  The constants are
the 15×15 grid, start = return = (0,14) and budget 50. -/
theorem step_terminated_iff (rate : ℕ → Pos → ℚ) (env : EnvState) (action : ℕ) :
    ((UAVEnv.step rate env action).terminated = true ↔
      (UAVEnv.move env.uav_pos action = UAV.END_POS ∧
        env.uav_step + 1 = UAV.FLIGHT_TIME))
    ∧ ((UAVEnv.step rate env action).terminated = true →
        (UAVEnv.step rate env action).truncated = false ∧
        (UAVEnv.step rate env action).reward =
          npMin (UE.ids.map (fun ue => rate ue (UAVEnv.move env.uav_pos action))))
    ∧ ¬((UAVEnv.step rate env action).terminated = true ∧
        (UAVEnv.step rate env action).truncated = true)
    ∧ ((UAVEnv.step rate env action).truncated = true →
        ((UAVEnv.move env.uav_pos action = UAV.END_POS ∧
            env.uav_step + 1 ≠ UAV.FLIGHT_TIME) ∨
         (UAVEnv.move env.uav_pos action ≠ UAV.END_POS ∧
            env.uav_step + 1 = UAV.FLIGHT_TIME)))
    ∧ ((UAVEnv.move env.uav_pos action ≠ UAV.END_POS ∧
          env.uav_step + 1 ≠ UAV.FLIGHT_TIME) →
        (UAVEnv.step rate env action).terminated = false ∧
        (UAVEnv.step rate env action).truncated = false)
    ∧ (Frame.COLS = 15 ∧ Frame.ROWS = 15 ∧ UAV.START_POS = UAV.END_POS ∧
        UAV.END_POS = ⟨0, 14⟩ ∧ UAV.FLIGHT_TIME = 50) := by
  refine ⟨?_, ?_, ?_, ?_, ?_, by decide⟩ <;>
    (simp only [UAVEnv.step]; split_ifs with h1 h2 h3 <;> simp_all)

/-- Witness for C2: from cell (0,13) at step count 49, moving DOWN
reaches (0,14) at step 50: terminated, not truncated, raw reward. -/
theorem step_terminated_iff_witness :
    (UAVEnv.step (fun _ _ => 1) ⟨⟨0, 13⟩, 49⟩ 1).terminated = true
    ∧ (UAVEnv.step (fun _ _ => 1) ⟨⟨0, 13⟩, 49⟩ 1).truncated = false
    ∧ (UAVEnv.step (fun _ _ => 1) ⟨⟨0, 13⟩, 49⟩ 1).reward = 1 := by
  have h := step_terminated_iff (fun _ _ => 1) ⟨⟨0, 13⟩, 49⟩ 1
  have hterm : (UAVEnv.step (fun _ _ => 1) ⟨⟨0, 13⟩, 49⟩ 1).terminated = true :=
    h.1.mpr (by decide)
  refine ⟨hterm, (h.2.1 hterm).1, ?_⟩
  rw [(h.2.1 hterm).2]
  norm_num [UE.ids, npMin, UAV.FLIGHT_TIME]

/-- C3: the two truncation penalties of `step`.  An early return
(new position is the return cell, step count still below the budget)
sets `truncated` and charges `reward × (budget − step)`; an overrun
(step count reaches the budget away from the return cell) sets
`truncated` and charges `reward × 10`.  The raw reward is the minimum
channel rate over all receivers at the new cell. -/
theorem step_truncation_penalties (rate : ℕ → Pos → ℚ) (env : EnvState) (action : ℕ) :
    (UAVEnv.move env.uav_pos action = UAV.END_POS →
      env.uav_step + 1 < UAV.FLIGHT_TIME →
      (UAVEnv.step rate env action).truncated = true ∧
      (UAVEnv.step rate env action).reward =
        npMin (UE.ids.map (fun ue => rate ue (UAVEnv.move env.uav_pos action))) -
          npMin (UE.ids.map (fun ue => rate ue (UAVEnv.move env.uav_pos action))) *
            ((UAV.FLIGHT_TIME : ℚ) - ((env.uav_step + 1 : ℕ) : ℚ)))
    ∧ (env.uav_step + 1 = UAV.FLIGHT_TIME →
        UAVEnv.move env.uav_pos action ≠ UAV.END_POS →
        (UAVEnv.step rate env action).truncated = true ∧
        (UAVEnv.step rate env action).reward =
          npMin (UE.ids.map (fun ue => rate ue (UAVEnv.move env.uav_pos action))) -
            npMin (UE.ids.map (fun ue => rate ue (UAVEnv.move env.uav_pos action))) * 10)
    ∧ (∀ ue ∈ UE.ids,
        npMin (UE.ids.map (fun u => rate u (UAVEnv.move env.uav_pos action))) ≤
          rate ue (UAVEnv.move env.uav_pos action))
    ∧ (∃ ue ∈ UE.ids,
        npMin (UE.ids.map (fun u => rate u (UAVEnv.move env.uav_pos action))) =
          rate ue (UAVEnv.move env.uav_pos action)) := by
  refine ⟨?_, ?_, ?_, ?_⟩
  · intro hpos hstep
    have hne : env.uav_step + 1 ≠ UAV.FLIGHT_TIME := Nat.ne_of_lt hstep
    simp only [UAVEnv.step]
    split_ifs with h1 <;> simp_all
  · intro hstep hpos
    simp only [UAVEnv.step]
    split_ifs with h1 <;> simp_all
  · intro ue hue
    exact npMin_le _ _ (List.mem_map_of_mem _ hue)
  · have hmem := npMin_mem (UE.ids.map (fun u => rate u (UAVEnv.move env.uav_pos action)))
      (by simp [UE.ids])
    obtain ⟨ue, hue, heq⟩ := List.mem_map.mp hmem
    exact ⟨ue, hue, heq.symm⟩

/-- Witness for C3: an early return from (1,14) via LEFT at step 10
(reward 1 − 1·(50−10) = −39) and an overrun at (5,4) at step 50
(reward 1 − 1·10 = −9). -/
theorem step_truncation_penalties_witness :
    ((UAVEnv.step (fun _ _ => 1) ⟨⟨1, 14⟩, 9⟩ 2).truncated = true
      ∧ (UAVEnv.step (fun _ _ => 1) ⟨⟨1, 14⟩, 9⟩ 2).reward = -39)
    ∧ ((UAVEnv.step (fun _ _ => 1) ⟨⟨5, 5⟩, 49⟩ 0).truncated = true
      ∧ (UAVEnv.step (fun _ _ => 1) ⟨⟨5, 5⟩, 49⟩ 0).reward = -9) := by
  constructor
  · have h := (step_truncation_penalties (fun _ _ => 1) ⟨⟨1, 14⟩, 9⟩ 2).1
      (by decide) (by decide)
    refine ⟨h.1, ?_⟩
    rw [h.2]
    norm_num [UE.ids, npMin, UAV.FLIGHT_TIME]
  · have h := (step_truncation_penalties (fun _ _ => 1) ⟨⟨5, 5⟩, 49⟩ 0).2.1
      (by decide) (by decide)
    refine ⟨h.1, ?_⟩
    rw [h.2]
    norm_num [UE.ids, npMin, UAV.FLIGHT_TIME]

/-! ## Claims about the valid-action matrix -/

/-- C6: in the precomputed valid-action matrix, interior cells with no
orthogonally adjacent obstacle expose all 4 actions, the four grid
corners expose exactly 2, and in general an action is absent from a
cell's list exactly when it points off the grid or into an obstacle
cell (so an obstacle neighbour removes exactly the move towards it,
and edges remove exactly the moves off the grid). -/
theorem valid_action_matrix_characterization :
    (∀ c : ℕ, c < 15 → ∀ r : ℕ, r < 15 →
      (1 ≤ c ∧ c ≤ 13 ∧ 1 ≤ r ∧ r ≤ 13 ∧ ¬adjacentObstacle c r) →
      (State.valid_actions c r).length = 4)
    ∧ ((State.valid_actions 0 0).length = 2
        ∧ (State.valid_actions 14 0).length = 2
        ∧ (State.valid_actions 0 14).length = 2
        ∧ (State.valid_actions 14 14).length = 2)
    ∧ (∀ c : ℕ, c < 15 → ∀ r : ℕ, r < 15 → ∀ a : ℕ, a < 4 →
        (a ∉ State.valid_actions c r ↔
          (offGrid ((c : ℤ) + (actionDelta a).1) ((r : ℤ) + (actionDelta a).2) ∨
           obstacleAtZ ((c : ℤ) + (actionDelta a).1) ((r : ℤ) + (actionDelta a).2)))) := by
  refine ⟨?_, by decide, ?_⟩
  · decide
  · decide

/-- Witness for C6: cell (5,5) is interior with no adjacent obstacle
and exposes 4 actions; RIGHT is missing at (8,8) since (9,8) is an
obstacle cell. -/
theorem valid_action_matrix_characterization_witness :
    (State.valid_actions 5 5).length = 4
    ∧ (State.valid_actions 0 0).length = 2
    ∧ Action.RIGHT ∉ State.valid_actions 8 8 := by
  refine ⟨?_, valid_action_matrix_characterization.2.1.1, ?_⟩
  · exact valid_action_matrix_characterization.1 5 (by decide) 5 (by decide) (by decide)
  · exact (valid_action_matrix_characterization.2.2 8 (by decide) 8 (by decide) 3
      (by decide)).mpr (by decide)

/-- The position returned by `step` is the bounds-guarded displacement
of the old position, whatever the episode flags turn out to be. -/
theorem step_state_pos (rate : ℕ → Pos → ℚ) (env : EnvState) (action : ℕ) :
    (UAVEnv.step rate env action).state.uav_pos = UAVEnv.move env.uav_pos action
    ∧ (UAVEnv.step rate env action).state.uav_step = env.uav_step + 1 := by
  simp only [UAVEnv.step]
  split_ifs <;> exact ⟨rfl, rfl⟩

/-- A non-directional action (not 0..3) never moves the UAV. -/
theorem move_of_ge_four (pos : Pos) (a : ℕ) (ha : 4 ≤ a) :
    UAVEnv.move pos a = pos := by
  have h0 : ¬(a = Action.UP ∧ pos.row > 0) := by
    rintro ⟨rfl, -⟩; simp [Action.UP] at ha
  have h1 : ¬(a = Action.DOWN ∧ pos.row < Frame.ROWS - 1) := by
    rintro ⟨rfl, -⟩; simp [Action.DOWN] at ha
  have h2 : ¬(a = Action.LEFT ∧ pos.col > 0) := by
    rintro ⟨rfl, -⟩; simp [Action.LEFT] at ha
  have h3 : ¬(a = Action.RIGHT ∧ pos.col < Frame.COLS - 1) := by
    rintro ⟨rfl, -⟩; simp [Action.RIGHT] at ha
  rw [UAVEnv.move, if_neg h0, if_neg h1, if_neg h2, if_neg h3]

/-- The directional invalid actions, decided over the grid. -/
theorem move_invalid_lt_four :
    ∀ c : ℕ, c < 15 → ∀ r : ℕ, r < 15 → ∀ a : ℕ, a < 4 →
      a ∉ State.valid_actions c r →
      UAVEnv.move ⟨c, r⟩ a = ⟨c, r⟩ ∨ isObstacle (UAVEnv.move ⟨c, r⟩ a) := by
  decide

/-- C4 counterexample: RIGHT is not in the valid-action set of cell
(8,8) — it points into the obstacle cell (9,8) — yet `step` applies
the displacement, so the position does change: no permissive no-op. -/
theorem step_invalid_action_moves :
    Action.RIGHT ∉ State.valid_actions 8 8
    ∧ (UAVEnv.step (fun _ _ => 0) ⟨⟨8, 8⟩, 0⟩ Action.RIGHT).state.uav_pos = ⟨9, 8⟩
    ∧ (UAVEnv.step (fun _ _ => 0) ⟨⟨8, 8⟩, 0⟩ Action.RIGHT).state.uav_pos ≠ ⟨8, 8⟩ := by
  refine ⟨by decide, ?_, ?_⟩
  · rw [(step_state_pos _ _ _).1]
    decide
  · rw [(step_state_pos _ _ _).1]
    decide

/-- C4 as amended: supplying an action outside the cell's valid-action
set to `step` never errors, and either leaves the position unchanged
(non-directional actions and moves off the grid are silently ignored)
or — when the action points into an obstacle cell — actually moves the
UAV into that obstacle cell. -/
theorem step_invalid_action_noop_or_obstacle (rate : ℕ → Pos → ℚ)
    (c r a st : ℕ) (hc : c < 15) (hr : r < 15)
    (hinv : a ∉ State.valid_actions c r) :
    (UAVEnv.step rate ⟨⟨c, r⟩, st⟩ a).state.uav_pos = ⟨c, r⟩
    ∨ isObstacle (UAVEnv.step rate ⟨⟨c, r⟩, st⟩ a).state.uav_pos := by
  rw [(step_state_pos _ _ _).1]
  rcases lt_or_le a 4 with ha | ha
  · exact move_invalid_lt_four c hc r hr a ha hinv
  · exact Or.inl (move_of_ge_four _ _ ha)

/-- Witness for the amended C4: at the top-left corner, UP is invalid
and `step` leaves the position at (0,0). -/
theorem step_invalid_action_noop_or_obstacle_witness :
    (UAVEnv.step (fun _ _ => 0) ⟨⟨0, 0⟩, 0⟩ Action.UP).state.uav_pos = ⟨0, 0⟩
    ∨ isObstacle (UAVEnv.step (fun _ _ => 0) ⟨⟨0, 0⟩, 0⟩ Action.UP).state.uav_pos :=
  step_invalid_action_noop_or_obstacle (fun _ _ => 0) 0 0 Action.UP 0
    (by decide) (by decide) (by decide)

/-! ## Claims about `SARSA.get_action` -/

/-- C1: when a prior (state, action) pair is stored and a reward is
supplied, `get_action` rewrites the prior pair's Q-entry to
`Q(s,a) + α·(reward + γ·Q(s1,a1) − Q(s,a))`, where `s1` is the key of
the current state and `a1` is the action returned by this same call
(on-policy); every other key's row and every other index of the
updated row are unchanged. -/
theorem sarsa_update_on_policy (ag : SARSA) (state : AgentState) (r : ℚ)
    (or : RandOracle) (cs : AgentState) (a : ℕ)
    (hcs : ag.current_state = some cs) (ha : ag.current_action = some a) :
    ((ag.get_action state (some r) or).2.q_table cs.key =
      (ag.q_table cs.key).set a
        ((ag.q_table cs.key).getD a 0 + ag.alpha *
          (r + ag.gamma *
            (ag.q_table state.key).getD (ag.get_action state (some r) or).1 0 -
            (ag.q_table cs.key).getD a 0)))
    ∧ (∀ k, k ≠ cs.key → (ag.get_action state (some r) or).2.q_table k = ag.q_table k)
    ∧ (∀ i, i ≠ a →
        ((ag.get_action state (some r) or).2.q_table cs.key).getD i 0 =
          (ag.q_table cs.key).getD i 0) := by
  refine ⟨?_, ?_, ?_⟩
  · simp [SARSA.get_action, hcs, ha, SARSA.q]
  · intro k hk
    simp [SARSA.get_action, hcs, ha, SARSA.q, if_neg hk]
  · intro i hi
    simp only [SARSA.get_action, hcs, ha, SARSA.q, Option.getD_some,
      eq_self_iff_true, if_true]
    exact getD_set_ne _ _ _ _ _ hi

/-- A concrete agent for the C1 witness: prior pair ("s0", 0), row
Q("s0") = [1,0,0,0], next row Q("s1") = [0,2,0,0]. -/
def agC1 : SARSA :=
  { SARSA.mk' 4 with
    is_exploration := true
    q_table := fun k =>
      if k = "s0" then [1, 0, 0, 0]
      else if k = "s1" then [0, 2, 0, 0]
      else List.replicate 4 0
    current_state := some ⟨"s0", [0, 1, 2, 3]⟩
    current_action := some 0 }

/-- Witness for C1: with reward 1 the exploring agent picks a1 = 1 and
Q("s0")[0] becomes 1 + 0.3·(1 + 0.9·2 − 1) = 77/50. -/
theorem sarsa_update_on_policy_witness :
    (agC1.get_action ⟨"s1", [0, 1, 2, 3]⟩ (some 1) ⟨0, 1⟩).2.q_table "s0"
      = [77/50, 0, 0, 0] := by
  have h := (sarsa_update_on_policy agC1 ⟨"s1", [0, 1, 2, 3]⟩ 1 ⟨0, 1⟩
    ⟨"s0", [0, 1, 2, 3]⟩ 0 rfl rfl).1
  rw [h]
  norm_num [agC1, SARSA.mk', DecayingFloat.mk', SARSA.get_action, SARSA.q, randChoice]
  rw [if_neg (by decide : ¬("s1" : String) = "s0")]
  norm_num

/-- C8: the action returned by `get_action` always lies in the state's
valid-action list; on the exploitation branch its Q-value equals the
maximum Q-value over the valid actions, and every valid action
attaining that maximum is reachable under some choice of the
tie-breaking randomness (the candidate list is the full set of
maximizers, not just the first index). -/
theorem sarsa_action_in_valid_set (ag : SARSA) (state : AgentState)
    (reward : Option ℚ) (or : RandOracle) (hne : state.valid_actions ≠ []) :
    ((ag.get_action state reward or).1 ∈ state.valid_actions)
    ∧ (¬(ag.is_exploration = true ∧ or.draw < ag.epsilon.value) →
        ((ag.q state.key).getD (ag.get_action state reward or).1 0 =
            npMax (state.valid_actions.map (fun i => (ag.q state.key).getD i 0))
          ∧ (∀ i ∈ state.valid_actions,
              (ag.q state.key).getD i 0 ≤
                npMax (state.valid_actions.map (fun i => (ag.q state.key).getD i 0)))
          ∧ ∀ b ∈ state.valid_actions.filter
                (fun i => (ag.q state.key).getD i 0 =
                  npMax (state.valid_actions.map (fun j => (ag.q state.key).getD j 0))),
              ∃ k : ℕ, (ag.get_action state reward ⟨or.draw, k⟩).1 = b)) := by
  have hmapne : state.valid_actions.map (fun i => (ag.q state.key).getD i 0) ≠ [] := by
    simpa using hne
  obtain ⟨i0, hi0, hfi0⟩ :=
    List.mem_map.mp (npMax_mem _ hmapne)
  have hfilne :
      state.valid_actions.filter
        (fun i => (ag.q state.key).getD i 0 =
          npMax (state.valid_actions.map (fun j => (ag.q state.key).getD j 0))) ≠ [] := by
    refine List.ne_nil_of_mem (a := i0) (List.mem_filter.mpr ⟨hi0, ?_⟩)
    exact decide_eq_true hfi0
  constructor
  · by_cases hcond : ag.is_exploration = true ∧ or.draw < ag.epsilon.value
    · simp only [SARSA.get_action, if_pos hcond]
      exact randChoice_mem _ _ hne
    · simp only [SARSA.get_action, if_neg hcond]
      exact List.mem_of_mem_filter (randChoice_mem _ _ hfilne)
  · intro hcond
    refine ⟨?_, ?_, ?_⟩
    · have hmem := randChoice_mem _ or.pick hfilne
      have hdec := List.of_mem_filter hmem
      have heq := of_decide_eq_true hdec
      simpa only [SARSA.get_action, if_neg hcond] using heq
    · intro i hi
      exact le_npMax _ _ (List.mem_map_of_mem _ hi)
    · intro b hb
      obtain ⟨k, hk⟩ := randChoice_reaches _ b hb
      refine ⟨k, ?_⟩
      simpa only [SARSA.get_action, if_neg hcond] using hk

/-- A concrete agent for the C8 witness: exploitation only, all rows
[0,2,0,2] (a two-way tie at indices 1 and 3). -/
def agC8 : SARSA :=
  { SARSA.mk' 4 with is_exploration := false, q_table := fun _ => [0, 2, 0, 2] }

/-- Witness for C8: with exploration off the returned action is a
valid action attaining the maximal Q-value. -/
theorem sarsa_action_in_valid_set_witness :
    (agC8.get_action ⟨"s", [0, 1, 2, 3]⟩ none ⟨0, 0⟩).1 ∈ [0, 1, 2, 3]
    ∧ (agC8.q "s").getD (agC8.get_action ⟨"s", [0, 1, 2, 3]⟩ none ⟨0, 0⟩).1 0 =
        npMax ([0, 1, 2, 3].map (fun i => (agC8.q "s").getD i 0)) := by
  have h := sarsa_action_in_valid_set agC8 ⟨"s", [0, 1, 2, 3]⟩ none ⟨0, 0⟩ (by decide)
  exact ⟨h.1, (h.2 (by simp [agC8])).1⟩

/-- C9: on a first-ever call (no stored prior pair) and on any call
with no reward, the Q-table mapping is untouched whatever the reward
argument; and on every call the stored pair is replaced by the current
state together with the action being returned. -/
theorem sarsa_skip_update_and_store (ag : SARSA) (state : AgentState)
    (reward : Option ℚ) (or : RandOracle) :
    ((ag.current_state = none ∨ reward = none) →
      ∀ k, (ag.get_action state reward or).2.q_table k = ag.q_table k)
    ∧ (ag.get_action state reward or).2.current_state = some state
    ∧ (ag.get_action state reward or).2.current_action =
        some (ag.get_action state reward or).1 := by
  refine ⟨?_, rfl, rfl⟩
  rintro (h | h) k
  · simp [SARSA.get_action, h]
  · subst h
    cases hcs : ag.current_state <;> simp [SARSA.get_action, hcs]

/-- Witness for C9: a freshly constructed agent called with a reward
leaves its Q-table untouched and stores the new state. -/
theorem sarsa_skip_update_and_store_witness :
    ((SARSA.mk' 4).get_action ⟨"s", [0, 1]⟩ (some 5) ⟨0, 0⟩).2.q_table "s"
        = (SARSA.mk' 4).q_table "s"
    ∧ ((SARSA.mk' 4).get_action ⟨"s", [0, 1]⟩ (some 5) ⟨0, 0⟩).2.current_state
        = some ⟨"s", [0, 1]⟩ := by
  have h := sarsa_skip_update_and_store (SARSA.mk' 4) ⟨"s", [0, 1]⟩ (some 5) ⟨0, 0⟩
  exact ⟨h.1 (Or.inl rfl) "s", h.2.1⟩

/-- C10: every `get_action` call decays epsilon exactly once — the new
epsilon is `decay` of the old, whatever the exploration flag and
whichever branch ran — while `set_exploration` only swaps the flag and
returns the previous one, leaving epsilon (and the Q-table) alone. -/
theorem sarsa_epsilon_decay_each_call (ag : SARSA) (state : AgentState)
    (reward : Option ℚ) (or : RandOracle) (b : Bool) :
    (ag.get_action state reward or).2.epsilon = ag.epsilon.decay
    ∧ (ag.set_exploration b).2.epsilon = ag.epsilon
    ∧ (ag.set_exploration b).1 = ag.is_exploration
    ∧ (ag.set_exploration b).2.is_exploration = b
    ∧ (ag.set_exploration b).2.q_table = ag.q_table :=
  ⟨rfl, rfl, rfl, rfl, rfl⟩

/-! ## Snapshot persistence (`save_data` / `load_data`) -/

/-- A JSON value appearing in a snapshot: an action-value row, the
float reserved value ("epsilon") or the integer reserved value
("round"). -/
inductive SnapVal where
  | arr (row : List ℚ)
  | num (x : ℚ)
  | int (n : ℤ)
  deriving DecidableEq, Repr

/-- Key lookup in a JSON object, represented as an association list. -/
def lookupSnap (snap : List (String × SnapVal)) (k : String) : Option SnapVal :=
  (snap.find? (fun kv => kv.1 = k)).map (fun kv => kv.2)

/-- Key lookup in the Q-table dictionary being saved. -/
def lookupRow (qt : List (String × List ℚ)) (k : String) : Option (List ℚ) :=
  (qt.find? (fun kv => kv.1 = k)).map (fun kv => kv.2)

/-- The snapshot content written by `SARSA.save_data` (rl/sarsa.py
lines 69-90): the table rows plus the two reserved keys `"round"`
(the given round number) and `"epsilon"` (the current float value),
injected into the table representation. -/
def SARSA.save_repr (q_table : List (String × List ℚ)) (round_id : ℤ) (eps : ℚ) :
    List (String × SnapVal) :=
  q_table.map (fun kv => (kv.1, SnapVal.arr kv.2)) ++
    [("round", SnapVal.int round_id), ("epsilon", SnapVal.num eps)]

/-- The row `SARSA.load_data` (rl/sarsa.py lines 45-67) restores for a
non-reserved key: the stored vector, converted back to an array. -/
def SARSA.load_row (snap : List (String × SnapVal)) (k : String) : Option (List ℚ) :=
  match lookupSnap snap k with
  | some (SnapVal.arr v) => some v
  | _ => none

/-- The round counter `load_data` returns (`self.q_table['round']`). -/
def SARSA.load_round (snap : List (String × SnapVal)) : Option ℤ :=
  match lookupSnap snap "round" with
  | some (SnapVal.int n) => some n
  | _ => none

/-- The epsilon value `load_data` restores into the exploration
parameter. -/
def SARSA.load_epsilon (snap : List (String × SnapVal)) : Option ℚ :=
  match lookupSnap snap "epsilon" with
  | some (SnapVal.num x) => some x
  | _ => none

theorem find?_map_arr : ∀ (qt : List (String × List ℚ)) (k : String) (v : List ℚ),
    lookupRow qt k = some v →
    (qt.map (fun kv => (kv.1, SnapVal.arr kv.2))).find? (fun kv => kv.1 = k) =
      some (k, SnapVal.arr v)
  | [], k, v, h => by simp [lookupRow] at h
  | (k0, v0) :: tl, k, v, h => by
    by_cases hk : k0 = k
    · subst hk
      rw [lookupRow, List.find?_cons_of_pos _ (by simp)] at h
      simp only [Option.map_some'] at h
      cases h
      simp [List.find?_cons_of_pos]
    · rw [lookupRow, List.find?_cons_of_neg _ (by simp [hk])] at h
      have hrec := find?_map_arr tl k v h
      simpa [List.find?_cons_of_neg, hk] using hrec

theorem load_row_save (qt : List (String × List ℚ)) (r : ℤ) (e : ℚ)
    (k : String) (v : List ℚ) (h : lookupRow qt k = some v) :
    SARSA.load_row (SARSA.save_repr qt r e) k = some v := by
  rw [SARSA.load_row, lookupSnap, SARSA.save_repr, List.find?_append,
    find?_map_arr qt k v h]
  rfl

theorem load_round_save (qt : List (String × List ℚ)) (r : ℤ) (e : ℚ)
    (hres : ∀ kv ∈ qt, kv.1 ≠ "round") :
    SARSA.load_round (SARSA.save_repr qt r e) = some r := by
  have hnone : (qt.map (fun kv => (kv.1, SnapVal.arr kv.2))).find?
      (fun kv => kv.1 = "round") = none := by
    rw [List.find?_eq_none]
    intro x hx
    obtain ⟨kv, hkv, rfl⟩ := List.mem_map.mp hx
    simpa using hres kv hkv
  rw [SARSA.load_round, lookupSnap, SARSA.save_repr, List.find?_append, hnone]
  rfl

theorem load_epsilon_save (qt : List (String × List ℚ)) (r : ℤ) (e : ℚ)
    (hres : ∀ kv ∈ qt, kv.1 ≠ "epsilon") :
    SARSA.load_epsilon (SARSA.save_repr qt r e) = some e := by
  have hnone : (qt.map (fun kv => (kv.1, SnapVal.arr kv.2))).find?
      (fun kv => kv.1 = "epsilon") = none := by
    rw [List.find?_eq_none]
    intro x hx
    obtain ⟨kv, hkv, rfl⟩ := List.mem_map.mp hx
    simpa using hres kv hkv
  rw [SARSA.load_epsilon, lookupSnap, SARSA.save_repr, List.find?_append, hnone]
  rfl

/-- The `localtime()` fields substituted into the snapshot name. -/
structure Timestamp where
  year : ℕ
  month : ℕ
  day : ℕ
  hour : ℕ
  minute : ℕ
  second : ℕ
  deriving DecidableEq, Repr

/-- Zero-padded two-digit field, as produced by `strftime` for
`%m %d %H %M %S`. -/
def pad2 (n : ℕ) : String := if n < 10 then "0" ++ toString n else toString n

/-- Zero-padded four-digit field, as produced by `strftime` for `%Y`. -/
def pad4 (n : ℕ) : String := pad2 (n / 100) ++ pad2 (n % 100)

/-- The snapshot filename written by `save_data`:
`strftime(f"{self.name}-[%Y-%m-%d][%Hh%Mm%Ss].json", localtime())`. -/
def SARSA.save_filename (name : String) (t : Timestamp) : String :=
  name ++ "-[" ++ pad4 t.year ++ "-" ++ pad2 t.month ++ "-" ++ pad2 t.day ++
    "][" ++ pad2 t.hour ++ "h" ++ pad2 t.minute ++ "m" ++ pad2 t.second ++ "s].json"

/-- The fixed filename `load_data` reads: `f"{self.name}-load.json"`. -/
def SARSA.load_filename (name : String) : String := name ++ "-load.json"

set_option maxRecDepth 4000 in
theorem pad2_data_len : ∀ n : ℕ, n < 100 → (pad2 n).data.length = 2 := by decide

set_option maxRecDepth 10000 in
theorem pad2_data_inj : ∀ m : ℕ, m < 100 → ∀ n : ℕ, n < 100 →
    (pad2 m).data = (pad2 n).data → m = n := by decide

theorem pad4_data_len (n : ℕ) (h : n < 10000) : (pad4 n).data.length = 4 := by
  rw [pad4, String.data_append, List.length_append,
    pad2_data_len _ (by omega), pad2_data_len _ (Nat.mod_lt _ (by omega))]

theorem pad4_data_inj (m : ℕ) (hm : m < 10000) (n : ℕ) (hn : n < 10000)
    (h : (pad4 m).data = (pad4 n).data) : m = n := by
  rw [pad4, pad4, String.data_append, String.data_append] at h
  obtain ⟨h1, h2⟩ := List.append_inj h
    (by rw [pad2_data_len _ (by omega), pad2_data_len _ (by omega)])
  have e1 := pad2_data_inj _ (by omega) _ (by omega) h1
  have e2 := pad2_data_inj _ (Nat.mod_lt _ (by omega)) _ (Nat.mod_lt _ (by omega)) h2
  omega

theorem save_filename_inj (name : String) (t t' : Timestamp)
    (h1 : t.year < 10000) (h2 : t.month < 100) (h3 : t.day < 100)
    (h4 : t.hour < 100) (h5 : t.minute < 100) (h6 : t.second < 100)
    (h1' : t'.year < 10000) (h2' : t'.month < 100) (h3' : t'.day < 100)
    (h4' : t'.hour < 100) (h5' : t'.minute < 100) (h6' : t'.second < 100)
    (heq : SARSA.save_filename name t = SARSA.save_filename name t') : t = t' := by
  obtain ⟨y, M, d, hh, mm, ss⟩ := t
  obtain ⟨y', M', d', hh', mm', ss'⟩ := t'
  simp only at h1 h2 h3 h4 h5 h6 h1' h2' h3' h4' h5' h6'
  have hd : (SARSA.save_filename name ⟨y, M, d, hh, mm, ss⟩).data
      = (SARSA.save_filename name ⟨y', M', d', hh', mm', ss'⟩).data := by rw [heq]
  simp only [SARSA.save_filename, String.data_append, List.append_assoc] at hd
  have hd1 := List.append_inj_right hd rfl
  have hd2 := List.append_inj_right hd1 rfl
  obtain ⟨hy, hd3⟩ := List.append_inj hd2
    (by rw [pad4_data_len _ h1, pad4_data_len _ h1'])
  have ey := pad4_data_inj _ h1 _ h1' hy
  have hd4 := List.append_inj_right hd3 rfl
  obtain ⟨hM, hd5⟩ := List.append_inj hd4
    (by rw [pad2_data_len _ h2, pad2_data_len _ h2'])
  have eM := pad2_data_inj _ h2 _ h2' hM
  have hd6 := List.append_inj_right hd5 rfl
  obtain ⟨hdd, hd7⟩ := List.append_inj hd6
    (by rw [pad2_data_len _ h3, pad2_data_len _ h3'])
  have ed := pad2_data_inj _ h3 _ h3' hdd
  have hd8 := List.append_inj_right hd7 rfl
  obtain ⟨hhh, hd9⟩ := List.append_inj hd8
    (by rw [pad2_data_len _ h4, pad2_data_len _ h4'])
  have eh := pad2_data_inj _ h4 _ h4' hhh
  have hd10 := List.append_inj_right hd9 rfl
  obtain ⟨hmm2, hd11⟩ := List.append_inj hd10
    (by rw [pad2_data_len _ h5, pad2_data_len _ h5'])
  have em := pad2_data_inj _ h5 _ h5' hmm2
  have hd12 := List.append_inj_right hd11 rfl
  obtain ⟨hss, -⟩ := List.append_inj hd12
    (by rw [pad2_data_len _ h6, pad2_data_len _ h6'])
  have es := pad2_data_inj _ h6 _ h6' hss
  simp [ey, eM, ed, eh, em, es]

theorem save_filename_ne_load (name : String) (t : Timestamp)
    (h1 : t.year < 10000) (h2 : t.month < 100) (h3 : t.day < 100)
    (h4 : t.hour < 100) (h5 : t.minute < 100) (h6 : t.second < 100) :
    SARSA.save_filename name t ≠ SARSA.load_filename name := by
  intro heq
  have hlen := congrArg (fun s => s.data.length) heq
  simp only [SARSA.save_filename, SARSA.load_filename, String.data_append,
    List.length_append] at hlen
  rw [pad4_data_len _ h1, pad2_data_len _ h2, pad2_data_len _ h3,
    pad2_data_len _ h4, pad2_data_len _ h5, pad2_data_len _ h6] at hlen
  simp only [show ("-[" : String).data.length = 2 from rfl,
    show ("-" : String).data.length = 1 from rfl,
    show ("][" : String).data.length = 2 from rfl,
    show ("h" : String).data.length = 1 from rfl,
    show ("m" : String).data.length = 1 from rfl,
    show ("s].json" : String).data.length = 7 from rfl,
    show ("-load.json" : String).data.length = 10 from rfl] at hlen
  omega

/-- Realistic bounds on the `localtime()` fields: the month, day,
hour, minute and second fields print as two digits, the year as
four. -/
def Timestamp.valid (t : Timestamp) : Prop :=
  t.year < 10000 ∧ t.month < 100 ∧ t.day < 100 ∧ t.hour < 100 ∧
    t.minute < 100 ∧ t.second < 100

instance (t : Timestamp) : Decidable t.valid := by
  unfold Timestamp.valid; infer_instance

/-- C5: a snapshot written by `save_data(round)` restores exactly:
every saved key's row reads back unchanged, the stored round number
and epsilon come back as given; and the snapshot name is
timestamp-derived — distinct save times give distinct names, and no
save ever targets the fixed `-load.json` file read by `load_data`. -/
theorem snapshot_roundtrip_and_unique_name :
    (∀ (qt : List (String × List ℚ)) (r : ℤ) (e : ℚ) (k : String) (v : List ℚ),
      lookupRow qt k = some v →
      SARSA.load_row (SARSA.save_repr qt r e) k = some v)
    ∧ (∀ (qt : List (String × List ℚ)) (r : ℤ) (e : ℚ),
        (∀ kv ∈ qt, kv.1 ≠ "round") →
        SARSA.load_round (SARSA.save_repr qt r e) = some r)
    ∧ (∀ (qt : List (String × List ℚ)) (r : ℤ) (e : ℚ),
        (∀ kv ∈ qt, kv.1 ≠ "epsilon") →
        SARSA.load_epsilon (SARSA.save_repr qt r e) = some e)
    ∧ (∀ (name : String) (t t' : Timestamp), t.valid → t'.valid →
        t ≠ t' → SARSA.save_filename name t ≠ SARSA.save_filename name t')
    ∧ (∀ (name : String) (t : Timestamp), t.valid →
        SARSA.save_filename name t ≠ SARSA.load_filename name) := by
  refine ⟨load_row_save, load_round_save, load_epsilon_save, ?_, ?_⟩
  · rintro name t t' ⟨v1, v2, v3, v4, v5, v6⟩ ⟨w1, w2, w3, w4, w5, w6⟩ hne heq
    exact hne (save_filename_inj name t t' v1 v2 v3 v4 v5 v6 w1 w2 w3 w4 w5 w6 heq)
  · rintro name t ⟨v1, v2, v3, v4, v5, v6⟩
    exact save_filename_ne_load name t v1 v2 v3 v4 v5 v6

/-- Witness for C5: the spec's example — key "(2,3,1)" with row
[0.1, 0.2, 0.3, 0.4] and round 7 — round-trips exactly, and two saves
one second apart target different files, neither the load file. -/
theorem snapshot_roundtrip_and_unique_name_witness :
    SARSA.load_row (SARSA.save_repr [("(2,3,1)", [1/10, 2/10, 3/10, 4/10])] 7 (1/2))
        "(2,3,1)" = some [1/10, 2/10, 3/10, 4/10]
    ∧ SARSA.load_round (SARSA.save_repr [("(2,3,1)", [1/10, 2/10, 3/10, 4/10])] 7 (1/2))
        = some 7
    ∧ SARSA.load_epsilon (SARSA.save_repr [("(2,3,1)", [1/10, 2/10, 3/10, 4/10])] 7 (1/2))
        = some (1/2)
    ∧ SARSA.save_filename "SARSA" ⟨2024, 1, 2, 3, 4, 5⟩ ≠
        SARSA.save_filename "SARSA" ⟨2024, 1, 2, 3, 4, 6⟩
    ∧ SARSA.save_filename "SARSA" ⟨2024, 1, 2, 3, 4, 5⟩ ≠ SARSA.load_filename "SARSA" := by
  refine ⟨?_, ?_, ?_, ?_, ?_⟩
  · exact snapshot_roundtrip_and_unique_name.1 _ 7 (1/2) _ _ rfl
  · exact snapshot_roundtrip_and_unique_name.2.1 _ 7 (1/2) (by decide)
  · exact snapshot_roundtrip_and_unique_name.2.2.1 _ 7 (1/2) (by decide)
  · exact snapshot_roundtrip_and_unique_name.2.2.2.1 "SARSA" _ _ (by decide)
      (by decide) (by decide)
  · exact snapshot_roundtrip_and_unique_name.2.2.2.2 "SARSA" _ (by decide)
